import Mathlib

/-
Verification of the snapshot reconciliation engine of grist-audit-cloud
(src/main.py) against its specification.

The Python functions are shallowly embedded as Lean definitions:

* JSON values (the payloads of Grist rows and column descriptors) are the
  inductive `JVal`.  Python `None` is `JVal.null`; numbers are modelled as
  `Int` (no claim involves non-integral numerics); Python `==` on such
  values, which compares dicts by key set rather than by entry order, is
  the boolean `pyEq` (structural equality after canonicalising every
  object by sorting and deduplicating its keys).  Python `str()` is
  approximated by `pyStr` (quoting of nested strings is simplified and no
  escaping is performed; no claim depends on the exact rendering).
* File I/O is made explicit: a function that reads and rewrites a JSON
  file becomes a function from the loaded value to the stored value.
* Python dicts built by comprehensions (`{r["id"]: r.get("fields", {})}`)
  are modelled by their lookup functions: the last row with a given key
  wins, exactly as repeated dict insertion does.
-/

namespace GristAudit

/-- JSON-like value as manipulated by src/main.py.  Objects are association
lists; `pyEq` below gives them Python's order-insensitive dict equality. -/
inductive JVal where
  | null : JVal
  | bool (b : Bool) : JVal
  | num (n : Int) : JVal
  | str (s : String) : JVal
  | arr (elems : List JVal) : JVal
  | obj (entries : List (String × JVal)) : JVal

mutual
def decEqV : (a b : JVal) → Decidable (a = b)
  | .null, .null => isTrue rfl
  | .bool x, .bool y =>
      match instDecidableEqBool x y with
      | isTrue h => isTrue (h ▸ rfl)
      | isFalse h => isFalse (fun hh => h (by injection hh))
  | .num x, .num y =>
      match Int.decEq x y with
      | isTrue h => isTrue (h ▸ rfl)
      | isFalse h => isFalse (fun hh => h (by injection hh))
  | .str x, .str y =>
      match String.decEq x y with
      | isTrue h => isTrue (h ▸ rfl)
      | isFalse h => isFalse (fun hh => h (by injection hh))
  | .arr x, .arr y =>
      match decEqL x y with
      | isTrue h => isTrue (h ▸ rfl)
      | isFalse h => isFalse (fun hh => h (by injection hh))
  | .obj x, .obj y =>
      match decEqP x y with
      | isTrue h => isTrue (h ▸ rfl)
      | isFalse h => isFalse (fun hh => h (by injection hh))
  | .null, .bool _ => isFalse nofun
  | .null, .num _ => isFalse nofun
  | .null, .str _ => isFalse nofun
  | .null, .arr _ => isFalse nofun
  | .null, .obj _ => isFalse nofun
  | .bool _, .null => isFalse nofun
  | .bool _, .num _ => isFalse nofun
  | .bool _, .str _ => isFalse nofun
  | .bool _, .arr _ => isFalse nofun
  | .bool _, .obj _ => isFalse nofun
  | .num _, .null => isFalse nofun
  | .num _, .bool _ => isFalse nofun
  | .num _, .str _ => isFalse nofun
  | .num _, .arr _ => isFalse nofun
  | .num _, .obj _ => isFalse nofun
  | .str _, .null => isFalse nofun
  | .str _, .bool _ => isFalse nofun
  | .str _, .num _ => isFalse nofun
  | .str _, .arr _ => isFalse nofun
  | .str _, .obj _ => isFalse nofun
  | .arr _, .null => isFalse nofun
  | .arr _, .bool _ => isFalse nofun
  | .arr _, .num _ => isFalse nofun
  | .arr _, .str _ => isFalse nofun
  | .arr _, .obj _ => isFalse nofun
  | .obj _, .null => isFalse nofun
  | .obj _, .bool _ => isFalse nofun
  | .obj _, .num _ => isFalse nofun
  | .obj _, .str _ => isFalse nofun
  | .obj _, .arr _ => isFalse nofun

def decEqL : (a b : List JVal) → Decidable (a = b)
  | [], [] => isTrue rfl
  | [], _ :: _ => isFalse nofun
  | _ :: _, [] => isFalse nofun
  | a :: as, b :: bs =>
      match decEqV a b, decEqL as bs with
      | isTrue h1, isTrue h2 => isTrue (h1 ▸ h2 ▸ rfl)
      | isFalse h1, _ => isFalse (fun hh => h1 (by injection hh))
      | isTrue _, isFalse h2 => isFalse (fun hh => h2 (by injection hh))

def decEqP : (a b : List (String × JVal)) → Decidable (a = b)
  | [], [] => isTrue rfl
  | [], _ :: _ => isFalse nofun
  | _ :: _, [] => isFalse nofun
  | (k, v) :: as, (k2, v2) :: bs =>
      match String.decEq k k2, decEqV v v2, decEqP as bs with
      | isTrue h0, isTrue h1, isTrue h2 => isTrue (h0 ▸ h1 ▸ h2 ▸ rfl)
      | isFalse h0, _, _ =>
          isFalse (fun hh => by injection hh with hp ht; exact h0 (congrArg Prod.fst hp))
      | isTrue _, isFalse h1, _ =>
          isFalse (fun hh => by injection hh with hp ht; exact h1 (congrArg Prod.snd hp))
      | isTrue _, isTrue _, isFalse h2 =>
          isFalse (fun hh => by injection hh with hp ht; exact h2 ht)
end

instance : DecidableEq JVal := decEqV

/-- Strict lexicographic comparison of character lists by code point,
modelling Python string comparison.  Written out so the kernel can
evaluate it (the core String order is not kernel-reducible). -/
def listLexLt : List Char → List Char → Bool
  | [], [] => false
  | [], _ :: _ => true
  | _ :: _, [] => false
  | a :: as, b :: bs =>
      if a.toNat < b.toNat then true
      else if b.toNat < a.toNat then false
      else listLexLt as bs

def strLt (a b : String) : Bool := listLexLt a.data b.data

def strLe (a b : String) : Bool := strLt a b || a == b

/-- Python comparison of (tableId, colId) pairs: lexicographic on the two
strings, as used by `sorted` over schema keys. -/
def keyLe (a b : String × String) : Bool := strLt a.1 b.1 || (a.1 == b.1 && strLe a.2 b.2)

def strLeP (a b : String) : Prop := strLe a b = true

instance : DecidableRel strLeP := fun a b => inferInstanceAs (Decidable (strLe a b = true))

def keyLeP (a b : String × String) : Prop := keyLe a b = true

instance : DecidableRel keyLeP := fun a b => inferInstanceAs (Decidable (keyLe a b = true))

def kvLe (a b : String × JVal) : Prop := strLe a.1 b.1 = true

instance : DecidableRel kvLe := fun a b => inferInstanceAs (Decidable (strLe a.1 b.1 = true))

def keysOf (l : List (String × JVal)) : List String := l.map (·.1)

/-- Lookup in an association list with Python-dict semantics: the last
binding of a key wins (repeated insertion overrides). -/
def olookup (l : List (String × JVal)) (k : String) : Option JVal :=
  ((l.filter (fun p => p.1 == k)).getLast?).map (·.2)

def dedupKeys (l : List (String × JVal)) : List (String × JVal) :=
  (keysOf l).dedup.map (fun k => (k, (olookup l k).getD JVal.null))

mutual
/-- Canonical form of a value: object entries are deduplicated by key and
sorted, so structural equality of canonical forms is Python's `==` on the
represented values. -/
def canon : JVal → JVal
  | .null => .null
  | .bool b => .bool b
  | .num n => .num n
  | .str s => .str s
  | .arr l => .arr (canonList l)
  | .obj l => .obj (List.insertionSort kvLe (dedupKeys (canonPairs l)))

def canonList : List JVal → List JVal
  | [] => []
  | v :: l => canon v :: canonList l

def canonPairs : List (String × JVal) → List (String × JVal)
  | [] => []
  | (k, v) :: l => (k, canon v) :: canonPairs l
end

/-- Python `==` on JSON values (dict comparison is key-set based, not
entry-order based). -/
def pyEq (a b : JVal) : Bool := canon a == canon b

mutual
/-- Python `repr()` of a JSON value, with simplified string quoting. -/
def pyRepr : JVal → String
  | .null => "None"
  | .bool true => "True"
  | .bool false => "False"
  | .num n => toString n
  | .str s => "\x27" ++ s ++ "\x27"
  | .arr l => "[" ++ pyReprList l ++ "]"
  | .obj l => "\x7b" ++ pyReprPairs l ++ "\x7d"

def pyReprList : List JVal → String
  | [] => ""
  | [v] => pyRepr v
  | v :: l => pyRepr v ++ ", " ++ pyReprList l

def pyReprPairs : List (String × JVal) → String
  | [] => ""
  | [(k, v)] => "\x27" ++ k ++ "\x27: " ++ pyRepr v
  | (k, v) :: l => "\x27" ++ k ++ "\x27: " ++ pyRepr v ++ ", " ++ pyReprPairs l
end

/-- Python `str()`: like `repr()` except that a top-level string is
rendered without quotes. -/
def pyStr : JVal → String
  | .str s => s
  | v => pyRepr v

/- ------------------- Content differ (make_equip_diff) ------------------- -/

/-- Row of the target content table: `{"id": ..., "fields": ...}`.  A row
whose JSON lacks the "fields" key is represented with `fields = obj []`,
matching `r.get("fields", {})`; an explicit JSON null is `fields = null`. -/
structure Row where
  id : Int
  fields : JVal
deriving DecidableEq

/-- Fields of the row with identifier `rid`, if some row has it; the last
matching row wins, as in the dict comprehension
`{r["id"]: r.get("fields", {}) for r in rows}`. -/
def rowFieldsOpt (rows : List Row) (rid : Int) : Option JVal :=
  ((rows.filter (fun r => r.id == rid)).getLast?).map (·.fields)

/-- Value of `idx.get(rid)` as observed by Python code that only tests
`is None` and `==`: an absent id and a present-but-null fields value are
both `None`. -/
def rowFieldsPy (rows : List Row) (rid : Int) : JVal :=
  (rowFieldsOpt rows rid).getD JVal.null

/-- Value of `idx.get(rid, {})`: absent ids default to the empty mapping. -/
def rowFieldsD (rows : List Row) (rid : Int) : JVal :=
  (rowFieldsOpt rows rid).getD (JVal.obj [])

/-- Union of the id sets of the two collections,
`set(cur_idx.keys()) | set(base_idx.keys())` (iteration order of a Python
set is unspecified; the diff consumers are order-insensitive per id). -/
def unionIds (cur base : List Row) : List Int :=
  (cur.map (·.id) ++ base.map (·.id)).dedup

/-- Whitespace as recognised by Python `str.strip()` (restricted to the
ASCII whitespace characters). -/
def pyIsSpace (c : Char) : Bool :=
  c == ' ' || c == '\t' || c == '\n' || c == '\r' || c.toNat == 11 || c.toNat == 12

/-- Emptiness test of a single field value from `_is_empty_fields`: None,
blank/whitespace-only string (`v.strip() == ""` holds exactly when every
character is whitespace), empty sequence or empty mapping. -/
def isEmptyVal : JVal → Bool
  | .null => true
  | .str s => s.data.all pyIsSpace
  | .arr l => l.isEmpty
  | .obj l => l.isEmpty
  | _ => false

/-- Model of `_is_empty_fields`: a non-dict value counts as empty; a dict
is empty when every value is empty by `isEmptyVal`. -/
def _is_empty_fields : JVal → Bool
  | .obj l => l.all (fun p => isEmptyVal p.2)
  | _ => true

inductive EquipCT where
  | added : EquipCT
  | changed : EquipCT
  | removed : EquipCT
deriving DecidableEq

/-- Content change record: `{"changeType": ..., "id": rid}` with
changeType ADDED_ROW / CHANGED_ROW / REMOVED_ROW. -/
structure EquipChange where
  changeType : EquipCT
  id : Int
deriving DecidableEq

/-- Record emitted for one id in the loop body of `make_equip_diff`. -/
def equipRecordFor (cur base : List Row) (rid : Int) : Option EquipChange :=
  let c := rowFieldsPy cur rid
  let b := rowFieldsPy base rid
  if c ≠ JVal.null ∧ b = JVal.null then some ⟨.added, rid⟩
  else if b ≠ JVal.null ∧ c = JVal.null then some ⟨.removed, rid⟩
  else if pyEq c b then none
  else if _is_empty_fields b then some ⟨.added, rid⟩
  else some ⟨.changed, rid⟩

/-- Model of `make_equip_diff(cur, base)`. -/
def make_equip_diff (cur base : List Row) : List EquipChange :=
  (unionIds cur base).filterMap (equipRecordFor cur base)

/- ------------------- Schema differ (make_schema_diff) ------------------- -/

/-- Names of the tracked fields, the module-level `FIELDS` list. -/
inductive SField where
  | type : SField
  | isFormula : SField
  | refTableId : SField
  | visibleCol : SField
  | label : SField
  | description : SField
deriving DecidableEq

def FIELDS : List SField :=
  [.type, .isFormula, .refTableId, .visibleCol, .label, .description]

/-- Column descriptor as produced by `scan_schema`, restricted to the
identity key and the fields read by `make_schema_diff`; the remaining
attributes (formula, isRef, pos) never influence the diff.  A descriptor
dict is non-empty, hence always truthy, so `if c and not b` in the source
is presence testing. -/
structure Col where
  tableId : String
  colId : String
  type : JVal
  isFormula : JVal
  refTableId : JVal
  visibleCol : JVal
  label : JVal
  description : JVal
deriving DecidableEq

def Col.getF (c : Col) : SField → JVal
  | .type => c.type
  | .isFormula => c.isFormula
  | .refTableId => c.refTableId
  | .visibleCol => c.visibleCol
  | .label => c.label
  | .description => c.description

/-- Schema change record variants of `make_schema_diff`. -/
inductive SchemaChange where
  | addedTable (tableId : String) : SchemaChange
  | removedTable (tableId : String) : SchemaChange
  | addedCol (tableId colId : String) : SchemaChange
  | removedCol (tableId colId : String) : SchemaChange
  | changedField (tableId colId : String) (field : SField)
      (oldValue newValue : String) : SchemaChange
deriving DecidableEq

/-- Model of `_tables`: the set of table ids of a snapshot. -/
def _tables (rows : List Col) : List String := (rows.map (·.tableId)).dedup

/-- Model of `_index_schema` at one key: the descriptor stored under
`(tableId, colId)`, last occurrence winning as in a dict comprehension. -/
def _index_schema (rows : List Col) (k : String × String) : Option Col :=
  (rows.filter (fun r => r.tableId == k.1 && r.colId == k.2)).getLast?

/-- Tables of `a` that are not tables of `b`, in sorted order:
`sorted(ta - tb)`. -/
def tableDiffSorted (a b : List Col) : List String :=
  List.insertionSort strLeP ((_tables a).filter (fun t => decide (t ∉ _tables b)))

def colKeys (rows : List Col) : List (String × String) :=
  rows.map (fun r => (r.tableId, r.colId))

/-- Sorted union of the column keys of the two snapshots:
`sorted(set(ic.keys()) | set(ib.keys()))`. -/
def sortedColKeys (cur base : List Col) : List (String × String) :=
  List.insertionSort keyLeP ((colKeys cur ++ colKeys base).dedup)

/-- CHANGED_FIELD records for one column present in both snapshots. -/
def changedFieldRecords (k : String × String) (c b : Col) : List SchemaChange :=
  FIELDS.filterMap (fun f =>
    if pyEq (b.getF f) (c.getF f) then none
    else some (.changedField k.1 k.2 f (pyStr (b.getF f)) (pyStr (c.getF f))))

/-- Records emitted for one column key in the main loop of
`make_schema_diff`. -/
def schemaRecordsFor (cur base : List Col) (k : String × String) : List SchemaChange :=
  match _index_schema cur k, _index_schema base k with
  | some _, none => [.addedCol k.1 k.2]
  | none, some _ => [.removedCol k.1 k.2]
  | some c, some b => changedFieldRecords k c b
  | none, none => []

/-- Model of `make_schema_diff(cur, base)`. -/
def make_schema_diff (cur base : List Col) : List SchemaChange :=
  (tableDiffSorted cur base).map .addedTable
    ++ (tableDiffSorted base cur).map .removedTable
    ++ (sortedColKeys cur base).flatMap (schemaRecordsFor cur base)

/-- Relabeling ADDED and REMOVED records, as in the anti-symmetry claim:
ADDED_TABLE and REMOVED_TABLE swap, ADDED_COL and REMOVED_COL swap,
CHANGED_FIELD records are untouched. -/
def relabelAR : SchemaChange → SchemaChange
  | .addedTable t => .removedTable t
  | .removedTable t => .addedTable t
  | .addedCol t c => .removedCol t c
  | .removedCol t c => .addedCol t c
  | .changedField t c f o n => .changedField t c f o n

/-- Exchange of the oldValue and newValue payloads of a CHANGED_FIELD
record (the repair that the anti-symmetry claim is missing). -/
def swapOldNew : SchemaChange → SchemaChange
  | .changedField t c f o n => .changedField t c f n o
  | .addedTable t => .addedTable t
  | .removedTable t => .removedTable t
  | .addedCol t c => .addedCol t c
  | .removedCol t c => .removedCol t c

/- ------------------- Status annotator (mark_status_equip) --------------- -/

def ctKind : EquipCT → String
  | .added => "added"
  | .changed => "changed"
  | .removed => "removed"

/-- Value of `kind_map.get(rid, "normal")`: the kind of the last diff
record carrying `rid` (later entries of the loop override earlier ones). -/
def kindOf (diff : List EquipChange) (rid : Int) : String :=
  match (diff.filter (fun d => d.id == rid)).getLast? with
  | some d => ctKind d.changeType
  | none => "normal"

/-- Row augmented by `mark_status_equip` with `kind` and `status`. -/
structure AnnRow where
  id : Int
  fields : JVal
  kind : String
  status : String
deriving DecidableEq

/-- Model of `mark_status_equip(cur, diff)`. -/
def mark_status_equip (cur : List Row) (diff : List EquipChange) : List AnnRow :=
  cur.map (fun r =>
    let k := kindOf diff r.id
    { id := r.id, fields := r.fields, kind := k,
      status := if k == "added" then "added"
                else if k == "changed" then "changed" else "normal" })

/- --------------- History merger (persist_history_from_diff) ------------- -/

/-- Persisted history event `{id, action, at, before, after}`; the JSON
key "at" is the field `atTime`. -/
structure HistEvent where
  id : Int
  action : String
  atTime : String
  before : JVal
  after : JVal
deriving DecidableEq

/-- Snapshot entry of equip_added.json / equip_removed.json
(`createdAt` / `deletedAt` is the field `atTime`). -/
structure RowSnap where
  id : Int
  fields : JVal
  atTime : String
deriving DecidableEq

/-- History events synthesised from a diff in the loop of
`persist_history_from_diff`: one event per record, before/after defaulting
to the empty mapping for absent ids. -/
def eventsFromDiff (diff : List EquipChange) (base cur : List Row) (now : String) :
    List HistEvent :=
  diff.map (fun d =>
    { id := d.id, action := ctKind d.changeType, atTime := now,
      before := rowFieldsD base d.id, after := rowFieldsD cur d.id })

/-- Model of `persist_history_from_diff`.  File I/O is explicit: `history`
is the loaded content of equip_history.json and the first component of the
result is what is saved back; the other two components are the freshly
rewritten equip_removed.json and equip_added.json. -/
def persist_history_from_diff (diff : List EquipChange) (base cur : List Row)
    (history : List HistEvent) (now : String) :
    List HistEvent × List RowSnap × List RowSnap :=
  (history ++ eventsFromDiff diff base cur now,
   (diff.filter (fun d => d.changeType == .removed)).map
     (fun d => { id := d.id, fields := rowFieldsD base d.id, atTime := now }),
   (diff.filter (fun d => d.changeType == .added)).map
     (fun d => { id := d.id, fields := rowFieldsD cur d.id, atTime := now }))

/- ------------------------ Run coordinator (/run) ------------------------ -/

/-- JSON body returned by the `/run` endpoint; `none` means the key is
absent from the response object. -/
structure RunResp where
  ok : Option Bool
  started : Option Bool
  busy : Option Bool
deriving DecidableEq

/-- Model of the `/run` handler as an atomic step over the coordinator
state `PROGRESS["busy"]`.  Result: the JSON response, whether a background
audit thread was launched, and the busy flag when the handler returns (the
handler itself never writes it; only the background task does).  The lock
file write is filesystem glue and is not modelled. -/
def runEndpoint (busy : Bool) : RunResp × Bool × Bool :=
  if busy then ({ ok := some false, started := none, busy := some true }, false, busy)
  else ({ ok := some true, started := some true, busy := none }, true, busy)

/- ============================ Helper lemmas ============================= -/

theorem pyEq_refl (a : JVal) : pyEq a a = true := by
  simp [pyEq]

theorem pyEq_comm (a b : JVal) : pyEq a b = pyEq b a := by
  unfold pyEq
  by_cases h : canon a = canon b
  · rw [h]
  · have h' : canon b ≠ canon a := fun hh => h hh.symm
    simp [h, h']

theorem rowFieldsPy_ne_null_mem {rows : List Row} {rid : Int}
    (h : rowFieldsPy rows rid ≠ JVal.null) : rid ∈ rows.map (·.id) := by
  unfold rowFieldsPy rowFieldsOpt at h
  cases hg : (rows.filter (fun r => r.id == rid)).getLast? with
  | none => rw [hg] at h; simp at h
  | some r =>
      have hr := List.mem_of_getLast?_eq_some hg
      rw [List.mem_filter] at hr
      exact List.mem_map.mpr ⟨r, hr.1, by simpa using hr.2⟩

theorem equipRecordFor_id {cur base : List Row} {rid : Int} {d : EquipChange}
    (h : equipRecordFor cur base rid = some d) : d.id = rid := by
  simp only [equipRecordFor] at h
  split at h
  · cases h; rfl
  · split at h
    · cases h; rfl
    · split at h
      · cases h
      · split at h
        · cases h; rfl
        · cases h; rfl

theorem mem_unionIds_left {cur base : List Row} {rid : Int}
    (h : rowFieldsPy cur rid ≠ JVal.null) : rid ∈ unionIds cur base := by
  unfold unionIds
  rw [List.mem_dedup]
  exact List.mem_append.mpr (.inl (rowFieldsPy_ne_null_mem h))

theorem not_mem_changed {cur base : List Row} {rid : Int}
    (hne : equipRecordFor cur base rid ≠ some ⟨.changed, rid⟩) :
    EquipChange.mk .changed rid ∉ make_equip_diff cur base := by
  intro hmem
  rw [make_equip_diff, List.mem_filterMap] at hmem
  obtain ⟨a, _, ha⟩ := hmem
  have hid : a = rid := by simpa using (equipRecordFor_id ha).symm
  exact hne (hid ▸ ha)

theorem rowFieldsOpt_mem {rows : List Row} {rid : Int} (h : rid ∈ rows.map (·.id)) :
    ∃ r ∈ rows, r.id = rid ∧ rowFieldsOpt rows rid = some r.fields := by
  unfold rowFieldsOpt
  obtain ⟨r0, hr0, hid⟩ := List.mem_map.mp h
  have hne : rows.filter (fun r => r.id == rid) ≠ [] := by
    intro hnil
    rw [List.filter_eq_nil_iff] at hnil
    exact hnil r0 hr0 (by simpa using hid)
  cases hg : (rows.filter (fun r => r.id == rid)).getLast? with
  | none => exact absurd (List.getLast?_eq_none_iff.mp hg) hne
  | some r =>
      have hr := List.mem_of_getLast?_eq_some hg
      rw [List.mem_filter] at hr
      exact ⟨r, hr.1, by simpa using hr.2, rfl⟩

theorem kindOf_not_mem {diff : List EquipChange} {rid : Int}
    (h : ∀ d ∈ diff, d.id ≠ rid) : kindOf diff rid = "normal" := by
  unfold kindOf
  have hnil : diff.filter (fun d => d.id == rid) = [] :=
    List.filter_eq_nil_iff.mpr (fun d hd => by simpa using h d hd)
  rw [hnil]
  rfl

theorem kindOf_uniform {diff : List EquipChange} {rid : Int} {ct : EquipCT}
    (hmem : EquipChange.mk ct rid ∈ diff)
    (hall : ∀ d ∈ diff, d.id = rid → d.changeType = ct) :
    kindOf diff rid = ctKind ct := by
  unfold kindOf
  cases hg : (diff.filter (fun d => d.id == rid)).getLast? with
  | none =>
      rw [List.getLast?_eq_none_iff, List.filter_eq_nil_iff] at hg
      have := hg _ hmem
      simp at this
  | some d =>
      have hd := List.mem_of_getLast?_eq_some hg
      rw [List.mem_filter] at hd
      have hid : d.id = rid := by simpa using hd.2
      show ctKind d.changeType = ctKind ct
      rw [hall d hd.1 hid]

theorem kindOf_range (diff : List EquipChange) (rid : Int) :
    kindOf diff rid = "added" ∨ kindOf diff rid = "changed"
    ∨ kindOf diff rid = "removed" ∨ kindOf diff rid = "normal" := by
  unfold kindOf
  cases (diff.filter (fun d => d.id == rid)).getLast? with
  | none => right; right; right; rfl
  | some d =>
      obtain ⟨ct, rid'⟩ := d
      cases ct
      · left; rfl
      · right; left; rfl
      · right; right; left; rfl

/- ========================= Claim C1 (corrected) ========================= -/

/-- Claim C1, as stated, is false: `persist_history_from_diff` performs no
deduplication, so a second run with identical inputs appends the diff
events again.  Concrete input: diff `[ADDED_ROW 1]`, empty baseline, one
current row; history length is 1 after run 1 and 2 after run 2. -/
theorem persist_history_not_idempotent_cex :
    ¬ (((persist_history_from_diff [⟨.added, 1⟩] []
          [⟨1, JVal.obj [("name", JVal.str "X")]⟩]
          ((persist_history_from_diff [⟨.added, 1⟩] []
            [⟨1, JVal.obj [("name", JVal.str "X")]⟩] [] "t").1) "t").1).length
        = ((persist_history_from_diff [⟨.added, 1⟩] []
            [⟨1, JVal.obj [("name", JVal.str "X")]⟩] [] "t").1).length) := by
  decide

/-- Claim C1, amended: the history merger appends one event per diff
record unconditionally — there is no deduplication key — so running
`persist_history_from_diff` a second time with the identical diff,
baseline and current fields grows the history by exactly the number of
diff records (idempotent only for an empty diff). -/
theorem persist_history_second_run_appends (diff : List EquipChange) (base cur : List Row)
    (history : List HistEvent) (t1 t2 : String) :
    ((persist_history_from_diff diff base cur
        ((persist_history_from_diff diff base cur history t1).1) t2).1).length
      = ((persist_history_from_diff diff base cur history t1).1).length + diff.length := by
  simp [persist_history_from_diff, eventsFromDiff]
  omega

/- ========================= Claim C3 (confirmed) ========================= -/

/-- Claim C3: history is append-only — every event already persisted
before a run of `persist_history_from_diff` is still present, unchanged
and at its original position, in the history written at the end; new
events only go after the existing ones. -/
theorem persist_history_append_only (diff : List EquipChange) (base cur : List Row)
    (history : List HistEvent) (now : String) :
    history.length ≤ ((persist_history_from_diff diff base cur history now).1).length
    ∧ ∀ i : Nat, i < history.length →
        ((persist_history_from_diff diff base cur history now).1)[i]? = history[i]? := by
  constructor
  · simp [persist_history_from_diff]
  · intro i hi
    show (history ++ eventsFromDiff diff base cur now)[i]? = history[i]?
    rw [List.getElem?_append, if_pos hi]

theorem persist_history_append_only_witness :
    ([⟨1, "added", "t0", JVal.obj [], JVal.obj []⟩] : List HistEvent).length ≤
      ((persist_history_from_diff [⟨.added, 2⟩] [] [⟨2, JVal.obj [("a", JVal.num 1)]⟩]
         [⟨1, "added", "t0", JVal.obj [], JVal.obj []⟩] "t1").1).length
    ∧ ((persist_history_from_diff [⟨.added, 2⟩] [] [⟨2, JVal.obj [("a", JVal.num 1)]⟩]
         [⟨1, "added", "t0", JVal.obj [], JVal.obj []⟩] "t1").1)[0]?
        = ([⟨1, "added", "t0", JVal.obj [], JVal.obj []⟩] : List HistEvent)[0]? :=
  ⟨(persist_history_append_only [⟨.added, 2⟩] [] [⟨2, JVal.obj [("a", JVal.num 1)]⟩]
      [⟨1, "added", "t0", JVal.obj [], JVal.obj []⟩] "t1").1,
   (persist_history_append_only [⟨.added, 2⟩] [] [⟨2, JVal.obj [("a", JVal.num 1)]⟩]
      [⟨1, "added", "t0", JVal.obj [], JVal.obj []⟩] "t1").2 0 (by decide)⟩

/- ========================= Claim C7 (corrected) ========================= -/

/-- Claim C7, as stated, is false on one point: when busy, the `/run`
handler returns `{"ok": false, "busy": true}` — the response carries no
`started` key at all, rather than `started: false`. -/
theorem run_busy_response_cex : ((runEndpoint true).1).started ≠ some false := by
  decide

/-- Claim C7, amended: when the coordinator is busy a `/run` call is
rejected without queueing — the response is `{ok: false, busy: true}`
(no `started` key), no background run is launched, and the busy flag is
unchanged; when not busy the response is `{ok: true, started: true}` and
exactly one background run is launched. -/
theorem run_single_flight :
    runEndpoint true = ({ ok := some false, started := none, busy := some true }, false, true)
    ∧ runEndpoint false = ({ ok := some true, started := some true, busy := none }, true, false) := by
  exact ⟨rfl, rfl⟩

/- ========================= Claim C8 (confirmed) ========================= -/

/-- Claim C8: diffing a snapshot against itself yields no change records,
for the schema differ and the content differ alike. -/
theorem self_diff_empty (S : List Col) (R : List Row) :
    make_schema_diff S S = [] ∧ make_equip_diff R R = [] := by
  constructor
  · unfold make_schema_diff
    have htab : tableDiffSorted S S = [] := by
      unfold tableDiffSorted
      have : (_tables S).filter (fun t => decide (t ∉ _tables S)) = [] := by
        rw [List.filter_eq_nil_iff]
        intro t ht
        simp [ht]
      rw [this]
      rfl
    have hcol : ∀ k ∈ sortedColKeys S S, schemaRecordsFor S S k = [] := by
      intro k _
      unfold schemaRecordsFor
      cases h : _index_schema S k with
      | none => simp
      | some c =>
          simp only []
          unfold changedFieldRecords
          rw [List.filterMap_eq_nil_iff]
          intro f _
          simp [pyEq_refl]
    rw [htab, List.flatMap_eq_nil_iff.mpr hcol]
    rfl
  · unfold make_equip_diff
    rw [List.filterMap_eq_nil_iff]
    intro rid _
    by_cases hn : rowFieldsPy R rid = JVal.null
    · simp [equipRecordFor, hn, pyEq_refl]
    · simp [equipRecordFor, hn, pyEq_refl]

/- ========================= Claim C2 (confirmed) ========================= -/

/-- Claim C2: for any pair of row collections and any id carried by both
(each with a field mapping, per the Row Snapshot data model), if the two
mappings differ under Python equality and every value of the baseline
mapping is empty (None, blank string, empty sequence or empty mapping),
then `make_equip_diff` emits ADDED_ROW for that id and never CHANGED_ROW. -/
theorem empty_baseline_reclassified (cur base : List Row) (rid : Int)
    (lc lb : List (String × JVal))
    (hc : rowFieldsPy cur rid = JVal.obj lc)
    (hb : rowFieldsPy base rid = JVal.obj lb)
    (hne : pyEq (rowFieldsPy cur rid) (rowFieldsPy base rid) = false)
    (hempty : ∀ p ∈ lb, isEmptyVal p.2 = true) :
    EquipChange.mk .added rid ∈ make_equip_diff cur base
    ∧ EquipChange.mk .changed rid ∉ make_equip_diff cur base := by
  rw [hc, hb] at hne
  have hrec : equipRecordFor cur base rid = some ⟨.added, rid⟩ := by
    simp only [equipRecordFor]
    rw [hc, hb]
    rw [if_neg (by simp), if_neg (by simp), if_neg (by simp [hne]), if_pos]
    show _is_empty_fields (JVal.obj lb) = true
    simpa [_is_empty_fields, List.all_eq_true] using hempty
  have hmem : rid ∈ unionIds cur base :=
    mem_unionIds_left (by rw [hc]; exact fun hh => JVal.noConfusion hh)
  refine ⟨List.mem_filterMap.mpr ⟨rid, hmem, hrec⟩, not_mem_changed ?_⟩
  rw [hrec]
  simp

theorem empty_baseline_reclassified_witness :
    EquipChange.mk .added 1 ∈
      make_equip_diff [⟨1, JVal.obj [("a", JVal.str "x")]⟩]
        [⟨1, JVal.obj [("a", JVal.str "")]⟩]
    ∧ EquipChange.mk .changed 1 ∉
      make_equip_diff [⟨1, JVal.obj [("a", JVal.str "x")]⟩]
        [⟨1, JVal.obj [("a", JVal.str "")]⟩] :=
  empty_baseline_reclassified [⟨1, JVal.obj [("a", JVal.str "x")]⟩]
    [⟨1, JVal.obj [("a", JVal.str "")]⟩] 1
    [("a", JVal.str "x")] [("a", JVal.str "")]
    (by decide) (by decide) (by decide) (by decide)

/- ========================= Claim C9 (confirmed) ========================= -/

/-- Claim C9: a baseline fields value that is not a mapping at all
(including None) is treated as effectively empty; for an id carried by
both collections (the current one with a field mapping, as rows fetched
from the source always have) whose values differ, the differ emits
ADDED_ROW, never CHANGED_ROW. -/
theorem nondict_baseline_added (cur base : List Row) (rid : Int)
    (lc : List (String × JVal))
    (hc : rowFieldsPy cur rid = JVal.obj lc)
    (hb : ∀ l, rowFieldsPy base rid ≠ JVal.obj l)
    (hne : pyEq (rowFieldsPy cur rid) (rowFieldsPy base rid) = false) :
    _is_empty_fields (rowFieldsPy base rid) = true
    ∧ EquipChange.mk .added rid ∈ make_equip_diff cur base
    ∧ EquipChange.mk .changed rid ∉ make_equip_diff cur base := by
  have hemp : _is_empty_fields (rowFieldsPy base rid) = true := by
    cases hb' : rowFieldsPy base rid with
    | obj l => exact absurd hb' (hb l)
    | _ => rfl
  have hrec : equipRecordFor cur base rid = some ⟨.added, rid⟩ := by
    simp only [equipRecordFor]
    by_cases hn : rowFieldsPy base rid = JVal.null
    · rw [if_pos ⟨by rw [hc]; exact fun hh => JVal.noConfusion hh, hn⟩]
    · rw [if_neg (by simp [hn]), if_neg (by simp [hc]), if_neg (by simp [hne]),
        if_pos hemp]
  have hmem : rid ∈ unionIds cur base :=
    mem_unionIds_left (by rw [hc]; exact fun hh => JVal.noConfusion hh)
  refine ⟨hemp, List.mem_filterMap.mpr ⟨rid, hmem, hrec⟩, not_mem_changed ?_⟩
  rw [hrec]
  simp

theorem nondict_baseline_added_witness :
    _is_empty_fields (rowFieldsPy [⟨1, JVal.str "junk"⟩] 1) = true
    ∧ EquipChange.mk .added 1 ∈
        make_equip_diff [⟨1, JVal.obj [("a", JVal.str "x")]⟩] [⟨1, JVal.str "junk"⟩]
    ∧ EquipChange.mk .changed 1 ∉
        make_equip_diff [⟨1, JVal.obj [("a", JVal.str "x")]⟩] [⟨1, JVal.str "junk"⟩] :=
  nondict_baseline_added [⟨1, JVal.obj [("a", JVal.str "x")]⟩] [⟨1, JVal.str "junk"⟩] 1
    [("a", JVal.str "x")] (by decide)
    (fun l hh => by simp [rowFieldsPy, rowFieldsOpt] at hh) (by decide)

/- ========================= Claim C5 (confirmed) ========================= -/

/-- Claim C5: first-run semantics.  With an empty baseline (a missing or
unparseable baseline file loads as the empty list), every row id of the
current collection (rows carrying a field mapping, per the Row Snapshot
data model) gets an ADDED_ROW record and nothing else is emitted; every
current table gets an ADDED_TABLE record, every (table, column) key an
ADDED_COL record, and the schema diff contains no other kind of record. -/
theorem first_run_semantics (cur : List Row) (curS : List Col)
    (h : ∀ r ∈ cur, ∃ l, r.fields = JVal.obj l) :
    (∀ rid ∈ cur.map (·.id), EquipChange.mk .added rid ∈ make_equip_diff cur [])
    ∧ (∀ d ∈ make_equip_diff cur [], d.changeType = .added)
    ∧ (∀ t ∈ _tables curS, SchemaChange.addedTable t ∈ make_schema_diff curS [])
    ∧ (∀ k ∈ colKeys curS, SchemaChange.addedCol k.1 k.2 ∈ make_schema_diff curS [])
    ∧ (∀ s ∈ make_schema_diff curS [],
        (∃ t, s = .addedTable t) ∨ (∃ t c, s = .addedCol t c)) := by
  have hbnull : ∀ rid : Int, rowFieldsPy ([] : List Row) rid = JVal.null := fun _ => rfl
  refine ⟨?_, ?_, ?_, ?_, ?_⟩
  · intro rid hrid
    obtain ⟨r, hr, hidr, hopt⟩ := rowFieldsOpt_mem hrid
    obtain ⟨l, hl⟩ := h r hr
    have hcobj : rowFieldsPy cur rid = JVal.obj l := by
      unfold rowFieldsPy
      rw [hopt, hl]
      rfl
    have hrec : equipRecordFor cur [] rid = some ⟨.added, rid⟩ := by
      simp only [equipRecordFor]
      rw [hcobj, hbnull rid,
        if_pos ⟨fun hh => JVal.noConfusion hh, rfl⟩]
    have hmem : rid ∈ unionIds cur [] :=
      mem_unionIds_left (by rw [hcobj]; exact fun hh => JVal.noConfusion hh)
    exact List.mem_filterMap.mpr ⟨rid, hmem, hrec⟩
  · intro d hd
    rw [make_equip_diff, List.mem_filterMap] at hd
    obtain ⟨a, _, ha⟩ := hd
    simp only [equipRecordFor] at ha
    rw [hbnull a] at ha
    by_cases hcn : rowFieldsPy cur a = JVal.null
    · rw [if_neg (by simp [hcn]), if_neg (by simp [hcn]), if_pos] at ha
      · exact absurd ha (by simp)
      · rw [hcn]; exact pyEq_refl JVal.null
    · rw [if_pos ⟨hcn, rfl⟩] at ha
      cases ha
      rfl
  · intro t ht
    have hmem : t ∈ tableDiffSorted curS [] := by
      unfold tableDiffSorted
      rw [List.mem_insertionSort, List.mem_filter]
      exact ⟨ht, by simp [_tables]⟩
    exact List.mem_append.mpr
      (.inl (List.mem_append.mpr (.inl (List.mem_map.mpr ⟨t, hmem, rfl⟩))))
  · intro k hk
    obtain ⟨r0, hr0, hkey⟩ := List.mem_map.mp hk
    have hsome : (_index_schema curS k).isSome := by
      unfold _index_schema
      rw [List.getLast?_isSome]
      intro hnil
      rw [List.filter_eq_nil_iff] at hnil
      refine hnil r0 hr0 ?_
      rw [← hkey]
      simp
    have hknil : _index_schema ([] : List Col) k = none := rfl
    have hrec : schemaRecordsFor curS [] k = [.addedCol k.1 k.2] := by
      unfold schemaRecordsFor
      rw [hknil]
      cases hc : _index_schema curS k with
      | none => rw [hc] at hsome; exact absurd hsome (by simp)
      | some c => rfl
    have hkmem : k ∈ sortedColKeys curS [] := by
      unfold sortedColKeys
      rw [List.mem_insertionSort, List.mem_dedup]
      exact List.mem_append.mpr (.inl hk)
    refine List.mem_append.mpr (.inr ?_)
    exact List.mem_flatMap.mpr ⟨k, hkmem, by rw [hrec]; exact List.mem_singleton.mpr rfl⟩
  · intro s hs
    unfold make_schema_diff at hs
    rcases List.mem_append.mp hs with h12 | h3
    · rcases List.mem_append.mp h12 with h1 | h2
      · obtain ⟨t, _, rfl⟩ := List.mem_map.mp h1
        exact .inl ⟨t, rfl⟩
      · have : tableDiffSorted ([] : List Col) curS = [] := rfl
        rw [this] at h2
        exact absurd h2 (by simp)
    · obtain ⟨k, _, hsk⟩ := List.mem_flatMap.mp h3
      unfold schemaRecordsFor at hsk
      rw [show _index_schema ([] : List Col) k = none from rfl] at hsk
      cases hc : _index_schema curS k with
      | none =>
          rw [hc] at hsk
          exact absurd hsk (by simp)
      | some c =>
          rw [hc] at hsk
          rw [List.mem_singleton] at hsk
          exact .inr ⟨k.1, k.2, hsk⟩

theorem first_run_semantics_witness :
    EquipChange.mk .added 1 ∈ make_equip_diff [⟨1, JVal.obj [("n", JVal.str "A")]⟩] []
    ∧ SchemaChange.addedTable "T" ∈
        make_schema_diff
          [⟨"T", "c", JVal.str "Text", JVal.bool false, JVal.str "", JVal.null,
            JVal.str "lbl", JVal.str ""⟩] [] :=
  ⟨(first_run_semantics [⟨1, JVal.obj [("n", JVal.str "A")]⟩]
      [⟨"T", "c", JVal.str "Text", JVal.bool false, JVal.str "", JVal.null,
        JVal.str "lbl", JVal.str ""⟩]
      (fun r hr => by rw [List.mem_singleton] at hr; subst hr; exact ⟨_, rfl⟩)).1
      1 (by decide),
   (first_run_semantics [⟨1, JVal.obj [("n", JVal.str "A")]⟩]
      [⟨"T", "c", JVal.str "Text", JVal.bool false, JVal.str "", JVal.null,
        JVal.str "lbl", JVal.str ""⟩]
      (fun r hr => by rw [List.mem_singleton] at hr; subst hr; exact ⟨_, rfl⟩)).2.2.1
      "T" (by decide)⟩

/- ========================= Claim C6 (confirmed) ========================= -/

/-- Claim C6: the status annotator classifies a current row whose id is
absent from every diff record as "normal", and a current row whose id
carries an ADDED_ROW record (content diffs carry at most one record per
id) as "added". -/
theorem mark_status_classification (cur : List Row) (diff : List EquipChange) (r : Row)
    (hr : r ∈ cur) :
    ((∀ d ∈ diff, d.id ≠ r.id) →
        AnnRow.mk r.id r.fields "normal" "normal" ∈ mark_status_equip cur diff)
    ∧ (EquipChange.mk .added r.id ∈ diff →
        (∀ d ∈ diff, d.id = r.id → d.changeType = .added) →
        AnnRow.mk r.id r.fields "added" "added" ∈ mark_status_equip cur diff) := by
  constructor
  · intro hnone
    have hk := kindOf_not_mem hnone
    refine List.mem_map.mpr ⟨r, hr, ?_⟩
    simp [hk]
  · intro hmem hall
    have hk := kindOf_uniform hmem hall
    refine List.mem_map.mpr ⟨r, hr, ?_⟩
    simp [hk, ctKind]

theorem mark_status_classification_witness :
    AnnRow.mk 1 (JVal.obj []) "normal" "normal" ∈
      mark_status_equip [⟨1, JVal.obj []⟩, ⟨2, JVal.obj []⟩] [⟨.added, 2⟩]
    ∧ AnnRow.mk 2 (JVal.obj []) "added" "added" ∈
      mark_status_equip [⟨1, JVal.obj []⟩, ⟨2, JVal.obj []⟩] [⟨.added, 2⟩] :=
  ⟨(mark_status_classification [⟨1, JVal.obj []⟩, ⟨2, JVal.obj []⟩] [⟨.added, 2⟩]
      ⟨1, JVal.obj []⟩ (by decide)).1 (by decide),
   (mark_status_classification [⟨1, JVal.obj []⟩, ⟨2, JVal.obj []⟩] [⟨.added, 2⟩]
      ⟨2, JVal.obj []⟩ (by decide)).2 (by decide) (by decide)⟩

/- ======================== Claim C10 (confirmed) ========================= -/

/-- Claim C10: the annotator writes both `kind` and `status`; they agree
whenever `kind` is not "removed", a row whose diff record is REMOVED_ROW
gets `kind` "removed" with `status` "normal", and "removed" never appears
in the `status` field. -/
theorem status_never_removed (cur : List Row) (diff : List EquipChange) :
    (∀ a ∈ mark_status_equip cur diff,
        a.status ≠ "removed"
        ∧ (a.kind ≠ "removed" → a.status = a.kind)
        ∧ (a.kind = "removed" → a.status = "normal"))
    ∧ (∀ r ∈ cur, EquipChange.mk .removed r.id ∈ diff →
        (∀ d ∈ diff, d.id = r.id → d.changeType = .removed) →
        AnnRow.mk r.id r.fields "removed" "normal" ∈ mark_status_equip cur diff) := by
  constructor
  · intro a ha
    obtain ⟨r, hr, rfl⟩ := List.mem_map.mp ha
    rcases kindOf_range diff r.id with hk | hk | hk | hk <;> simp [hk]
  · intro r hr hmem hall
    have hk := kindOf_uniform hmem hall
    refine List.mem_map.mpr ⟨r, hr, ?_⟩
    simp [hk, ctKind]

theorem status_never_removed_witness :
    AnnRow.mk 1 (JVal.obj []) "removed" "normal" ∈
      mark_status_equip [⟨1, JVal.obj []⟩] [⟨.removed, 1⟩]
    ∧ ((AnnRow.mk 1 (JVal.obj []) "removed" "normal").status ≠ "removed"
        ∧ ((AnnRow.mk 1 (JVal.obj []) "removed" "normal").kind ≠ "removed" →
            (AnnRow.mk 1 (JVal.obj []) "removed" "normal").status =
              (AnnRow.mk 1 (JVal.obj []) "removed" "normal").kind)
        ∧ ((AnnRow.mk 1 (JVal.obj []) "removed" "normal").kind = "removed" →
            (AnnRow.mk 1 (JVal.obj []) "removed" "normal").status = "normal")) :=
  ⟨(status_never_removed [⟨1, JVal.obj []⟩] [⟨.removed, 1⟩]).2 ⟨1, JVal.obj []⟩
      (by decide) (by decide) (by decide),
   (status_never_removed [⟨1, JVal.obj []⟩] [⟨.removed, 1⟩]).1
      (AnnRow.mk 1 (JVal.obj []) "removed" "normal")
      ((status_never_removed [⟨1, JVal.obj []⟩] [⟨.removed, 1⟩]).2 ⟨1, JVal.obj []⟩
        (by decide) (by decide) (by decide))⟩

/- ================== Order theory for the schema key sort ================ -/

theorem listLexLt_irrefl (l : List Char) : listLexLt l l = false := by
  induction l with
  | nil => rfl
  | cons a as ih =>
      unfold listLexLt
      rw [if_neg (Nat.lt_irrefl _), if_neg (Nat.lt_irrefl _)]
      exact ih

theorem listLexLt_asymm (a b : List Char) (h : listLexLt a b = true) :
    listLexLt b a = false := by
  induction a generalizing b with
  | nil =>
      cases b with
      | nil => rfl
      | cons c cs => rfl
  | cons x xs ih =>
      cases b with
      | nil => exact absurd h (by simp [listLexLt])
      | cons y ys =>
          unfold listLexLt at h ⊢
          by_cases h1 : x.toNat < y.toNat
          · rw [if_neg (by omega), if_pos h1]
          · by_cases h2 : y.toNat < x.toNat
            · rw [if_neg h1, if_pos h2] at h
              exact absurd h (by simp)
            · rw [if_neg h1, if_neg h2] at h
              rw [if_neg h2, if_neg h1]
              exact ih ys h

theorem listLexLt_trans (a b c : List Char) (h1 : listLexLt a b = true)
    (h2 : listLexLt b c = true) : listLexLt a c = true := by
  induction a generalizing b c with
  | nil =>
      cases c with
      | nil =>
          cases b with
          | nil => exact h2
          | cons y ys => exact absurd h2 (by simp [listLexLt])
      | cons z zs => rfl
  | cons x xs ih =>
      cases b with
      | nil => exact absurd h1 (by simp [listLexLt])
      | cons y ys =>
          cases c with
          | nil => exact absurd h2 (by simp [listLexLt])
          | cons z zs =>
              unfold listLexLt at h1 h2 ⊢
              by_cases hxy : x.toNat < y.toNat
              · by_cases hyz : y.toNat < z.toNat
                · rw [if_pos (by omega)]
                · by_cases hzy : z.toNat < y.toNat
                  · rw [if_neg hyz, if_pos hzy] at h2
                    exact absurd h2 (by simp)
                  · rw [if_pos (by omega)]
              · by_cases hyx : y.toNat < x.toNat
                · rw [if_neg hxy, if_pos hyx] at h1
                  exact absurd h1 (by simp)
                · rw [if_neg hxy, if_neg hyx] at h1
                  by_cases hyz : y.toNat < z.toNat
                  · rw [if_pos (by omega)]
                  · by_cases hzy : z.toNat < y.toNat
                    · rw [if_neg hyz, if_pos hzy] at h2
                      exact absurd h2 (by simp)
                    · rw [if_neg hyz, if_neg hzy] at h2
                      rw [if_neg (by omega), if_neg (by omega)]
                      exact ih ys zs h1 h2

theorem listLexLt_eq_of_not (a b : List Char) (h1 : listLexLt a b = false)
    (h2 : listLexLt b a = false) : a = b := by
  induction a generalizing b with
  | nil =>
      cases b with
      | nil => rfl
      | cons y ys => exact absurd h1 (by simp [listLexLt])
  | cons x xs ih =>
      cases b with
      | nil => exact absurd h2 (by simp [listLexLt])
      | cons y ys =>
          unfold listLexLt at h1 h2
          by_cases hxy : x.toNat < y.toNat
          · rw [if_pos hxy] at h1
            exact absurd h1 (by simp)
          · by_cases hyx : y.toNat < x.toNat
            · rw [if_neg hxy, if_pos hyx] at h2
              exact absurd h2 (by simp)
            · rw [if_neg hxy, if_neg hyx] at h1
              have hn : x.toNat = y.toNat := by omega
              have hc : x = y := Char.ext (UInt32.toNat.inj hn)
              rw [hc, ih ys h1 (by rw [if_neg hyx, if_neg hxy] at h2; exact h2)]

theorem strLt_asymm {a b : String} (h : strLt a b = true) : strLt b a = false :=
  listLexLt_asymm _ _ h

theorem strLt_trans {a b c : String} (h1 : strLt a b = true) (h2 : strLt b c = true) :
    strLt a c = true :=
  listLexLt_trans _ _ _ h1 h2

theorem strLt_irrefl (a : String) : strLt a a = false := listLexLt_irrefl _

theorem strLt_eq_of_not {a b : String} (h1 : strLt a b = false) (h2 : strLt b a = false) :
    a = b := by
  have hd := listLexLt_eq_of_not a.data b.data h1 h2
  cases a
  cases b
  exact congrArg String.mk hd

theorem strLe_refl (a : String) : strLe a a = true := by
  simp [strLe]

theorem strLe_trans {a b c : String} (h1 : strLe a b = true) (h2 : strLe b c = true) :
    strLe a c = true := by
  unfold strLe at h1 h2 ⊢
  rcases Bool.or_eq_true_iff.mp h1 with hl1 | he1
  · rcases Bool.or_eq_true_iff.mp h2 with hl2 | he2
    · exact Bool.or_eq_true_iff.mpr (.inl (strLt_trans hl1 hl2))
    · have hbc : b = c := by simpa using he2
      rw [← hbc]
      exact Bool.or_eq_true_iff.mpr (.inl hl1)
  · have hab : a = b := by simpa using he1
    rw [hab]
    exact h2

theorem strLe_antisymm {a b : String} (h1 : strLe a b = true) (h2 : strLe b a = true) :
    a = b := by
  unfold strLe at h1 h2
  rcases Bool.or_eq_true_iff.mp h1 with hl1 | he1
  · rcases Bool.or_eq_true_iff.mp h2 with hl2 | he2
    · exact absurd hl2 (by simp [strLt_asymm hl1])
    · exact (by simpa using he2 : b = a).symm
  · simpa using he1

theorem strLe_total (a b : String) : strLe a b = true ∨ strLe b a = true := by
  by_cases hl : strLt a b = true
  · exact .inl (by simp [strLe, hl])
  · by_cases hr : strLt b a = true
    · exact .inr (by simp [strLe, hr])
    · have hab : a = b := strLt_eq_of_not (by simpa using hl) (by simpa using hr)
      rw [hab]
      exact .inl (strLe_refl b)

theorem keyLe_trans {a b c : String × String} (h1 : keyLe a b = true)
    (h2 : keyLe b c = true) : keyLe a c = true := by
  unfold keyLe at h1 h2 ⊢
  rcases Bool.or_eq_true_iff.mp h1 with hl1 | he1
  · rcases Bool.or_eq_true_iff.mp h2 with hl2 | he2
    · exact Bool.or_eq_true_iff.mpr (.inl (strLt_trans hl1 hl2))
    · rw [Bool.and_eq_true_iff] at he2
      have hbc : b.1 = c.1 := by simpa using he2.1
      rw [← hbc]
      exact Bool.or_eq_true_iff.mpr (.inl hl1)
  · rw [Bool.and_eq_true_iff] at he1
    have hab : a.1 = b.1 := by simpa using he1.1
    rcases Bool.or_eq_true_iff.mp h2 with hl2 | he2
    · rw [hab]
      exact Bool.or_eq_true_iff.mpr (.inl hl2)
    · rw [Bool.and_eq_true_iff] at he2
      have hbc : b.1 = c.1 := by simpa using he2.1
      refine Bool.or_eq_true_iff.mpr (.inr ?_)
      rw [Bool.and_eq_true_iff]
      refine ⟨?_, strLe_trans he1.2 he2.2⟩
      rw [hab, hbc]
      simp

theorem keyLe_antisymm {a b : String × String} (h1 : keyLe a b = true)
    (h2 : keyLe b a = true) : a = b := by
  unfold keyLe at h1 h2
  rcases Bool.or_eq_true_iff.mp h1 with hl1 | he1
  · rcases Bool.or_eq_true_iff.mp h2 with hl2 | he2
    · exact absurd hl2 (by simp [strLt_asymm hl1])
    · rw [Bool.and_eq_true_iff] at he2
      have hba : b.1 = a.1 := by simpa using he2.1
      rw [hba] at hl1
      exact absurd hl1 (by simp [strLt_irrefl])
  · rw [Bool.and_eq_true_iff] at he1
    have hab : a.1 = b.1 := by simpa using he1.1
    rcases Bool.or_eq_true_iff.mp h2 with hl2 | he2
    · rw [hab] at hl2
      exact absurd hl2 (by simp [strLt_irrefl])
    · rw [Bool.and_eq_true_iff] at he2
      exact Prod.ext hab (strLe_antisymm he1.2 he2.2)

theorem keyLe_total (a b : String × String) : keyLe a b = true ∨ keyLe b a = true := by
  unfold keyLe
  by_cases hl : strLt a.1 b.1 = true
  · exact .inl (by simp [hl])
  · by_cases hr : strLt b.1 a.1 = true
    · exact .inr (by simp [hr])
    · have h1 : a.1 = b.1 := strLt_eq_of_not (by simpa using hl) (by simpa using hr)
      rcases strLe_total a.2 b.2 with h | h
      · exact .inl (by simp [h1, h])
      · exact .inr (by simp [h1, h])

instance : IsTrans (String × String) keyLeP := ⟨fun _ _ _ => keyLe_trans⟩

instance : IsAntisymm (String × String) keyLeP := ⟨fun _ _ => keyLe_antisymm⟩

instance : IsTotal (String × String) keyLeP := ⟨keyLe_total⟩

theorem sortedColKeys_comm (a b : List Col) : sortedColKeys a b = sortedColKeys b a := by
  unfold sortedColKeys
  refine List.eq_of_perm_of_sorted ?_ (List.sorted_insertionSort _ _)
    (List.sorted_insertionSort _ _)
  have p1 : List.Perm (List.insertionSort keyLeP ((colKeys a ++ colKeys b).dedup))
      ((colKeys a ++ colKeys b).dedup) := List.perm_insertionSort _ _
  have p2 : List.Perm ((colKeys a ++ colKeys b).dedup) ((colKeys b ++ colKeys a).dedup) :=
    List.Perm.dedup List.perm_append_comm
  have p3 : List.Perm (List.insertionSort keyLeP ((colKeys b ++ colKeys a).dedup))
      ((colKeys b ++ colKeys a).dedup) := List.perm_insertionSort _ _
  exact (p1.trans p2).trans p3.symm

/- ========================= Claim C4 (corrected) ========================= -/

theorem changedFieldRecords_swap (k : String × String) (c b : Col) :
    (changedFieldRecords k c b).map (fun r => swapOldNew (relabelAR r))
      = changedFieldRecords k b c := by
  unfold changedFieldRecords
  rw [List.map_filterMap]
  congr 1
  funext f
  rw [pyEq_comm (b.getF f) (c.getF f)]
  by_cases h : pyEq (c.getF f) (b.getF f) = true
  · rw [if_pos h, if_pos h]
    rfl
  · rw [if_neg h, if_neg h]
    rfl

theorem schemaRecordsFor_swap (A B : List Col) (k : String × String) :
    (schemaRecordsFor A B k).map (fun r => swapOldNew (relabelAR r))
      = schemaRecordsFor B A k := by
  unfold schemaRecordsFor
  cases hA : _index_schema A k <;> cases hB : _index_schema B k
  · rfl
  · rfl
  · rfl
  · exact changedFieldRecords_swap k _ _

/-- Claim C4, as stated, is false.  First input pair: one shared column
whose type differs — relabeling leaves the CHANGED_FIELD record untouched
while diffing in the opposite direction swaps its oldValue/newValue
payload.  Second input pair: one table only in A and one only in B — even
after also swapping old/new values, the two directions emit the
ADDED_TABLE and REMOVED_TABLE blocks in opposite order, so the outputs
differ as lists. -/
theorem schema_diff_antisymm_cex :
    ((make_schema_diff
        [⟨"T", "c", JVal.str "A", JVal.bool false, JVal.str "", JVal.null,
          JVal.str "", JVal.str ""⟩]
        [⟨"T", "c", JVal.str "B", JVal.bool false, JVal.str "", JVal.null,
          JVal.str "", JVal.str ""⟩]).map relabelAR
      ≠ make_schema_diff
        [⟨"T", "c", JVal.str "B", JVal.bool false, JVal.str "", JVal.null,
          JVal.str "", JVal.str ""⟩]
        [⟨"T", "c", JVal.str "A", JVal.bool false, JVal.str "", JVal.null,
          JVal.str "", JVal.str ""⟩])
    ∧ ((make_schema_diff
        [⟨"T1", "c", JVal.str "X", JVal.bool false, JVal.str "", JVal.null,
          JVal.str "", JVal.str ""⟩]
        [⟨"T2", "c", JVal.str "X", JVal.bool false, JVal.str "", JVal.null,
          JVal.str "", JVal.str ""⟩]).map (fun r => swapOldNew (relabelAR r))
      ≠ make_schema_diff
        [⟨"T2", "c", JVal.str "X", JVal.bool false, JVal.str "", JVal.null,
          JVal.str "", JVal.str ""⟩]
        [⟨"T1", "c", JVal.str "X", JVal.bool false, JVal.str "", JVal.null,
          JVal.str "", JVal.str ""⟩]) := by
  constructor
  · decide
  · decide

/-- Claim C4, amended: relabeling ADDED and REMOVED records of
`make_schema_diff A B` and additionally swapping the oldValue/newValue
payload of each CHANGED_FIELD record yields exactly the records of
`make_schema_diff B A` as a multiset; the two directions order the
ADDED_TABLE and REMOVED_TABLE blocks oppositely, so equality holds up to
permutation, not as lists. -/
theorem schema_diff_antisymm_perm (A B : List Col) :
    List.Perm ((make_schema_diff A B).map (fun r => swapOldNew (relabelAR r)))
      (make_schema_diff B A) := by
  unfold make_schema_diff
  rw [List.map_append, List.map_append, List.map_map, List.map_map, List.map_flatMap]
  have h1 : ((fun r => swapOldNew (relabelAR r)) ∘ SchemaChange.addedTable)
      = SchemaChange.removedTable := funext fun t => rfl
  have h2 : ((fun r => swapOldNew (relabelAR r)) ∘ SchemaChange.removedTable)
      = SchemaChange.addedTable := funext fun t => rfl
  have h3 : (fun k => (schemaRecordsFor A B k).map (fun r => swapOldNew (relabelAR r)))
      = schemaRecordsFor B A := funext (schemaRecordsFor_swap A B)
  rw [h1, h2, h3, sortedColKeys_comm A B]
  exact List.Perm.append_right _ List.perm_append_comm

end GristAudit
